import Mathlib

/-!
Verification of the Unlock/Reveal Orchestrator of `RadhaRadhaApp.tsx`.

The source is a single React component file.  The parts with actual
behavioural contracts — the phrase matcher, the lock-screen handlers, the
stage machine, the paragraph-reveal timer, the proposal decision handlers
and the background-audio loop engine — are shallowly embedded below as
executable Lean definitions; the decorative rendering is out of scope.

Strings are modelled as `List Char` (the character data of a JS string);
`String.prototype.toLowerCase` is modelled character-wise, which by the
specification is adequate for ASCII plus Devanagari (Devanagari has no
case).  JS timers are modelled as explicit pending-callback lists, and
closures that capture React state capture the value the state had when the
closure was created, exactly as JS closures over a `const` binding do.
-/

/-- Character-wise lower-casing, modelling `transcript.toLowerCase()`
(adequate for the ASCII letters and the uncased Devanagari script used by
the accepted phrases). -/
def lowerStr (s : List Char) : List Char := s.map Char.toLower

/-- Helper for the substring test: `startsWithL n l` holds when `l` begins
with the character sequence `n`. -/
def startsWithL : List Char → List Char → Bool
  | [], _ => true
  | _ :: _, [] => false
  | a :: n, b :: l => a == b && startsWithL n l

/-- Model of `String.prototype.includes`: `includesL needle hay` is true
when `needle` occurs as a contiguous segment of `hay`. -/
def includesL (needle : List Char) : List Char → Bool
  | [] => needle.isEmpty
  | c :: rest => startsWithL needle (c :: rest) || includesL needle rest

/-- `containsSeg hay needle` : `needle` occurs as a contiguous segment of
`hay` (the specification-level notion of substring containment). -/
def containsSeg (hay needle : List Char) : Prop :=
  ∃ u v, hay = u ++ needle ++ v

/-- The fixed accepted literal phrases of the lock screen, in the order in
which `onResult` / `handleFallbackSubmit` test them. -/
def acceptedPhrases : List (List Char) :=
  ["radha radha".data, "राधा राधा".data, "radha".data, "राधा".data]

/-- The phrase matcher inlined in `LockScreen.onResult` (lines 517–523) and
`handleFallbackSubmit` (lines 566–572): lower-case the input and test the
four accepted literals with `includes`. -/
def matchesText (s : List Char) : Bool :=
  let lower := lowerStr s
  includesL "radha radha".data lower || includesL "राधा राधा".data lower ||
    includesL "radha".data lower || includesL "राधा".data lower

/-- The matcher reduced to the two single-word checks only; written from the
claim that the two-word checks are subsumed by the single-word ones. -/
def matchesSingleWord (s : List Char) : Bool :=
  includesL "radha".data (lowerStr s) || includesL "राधा".data (lowerStr s)

/-- Callbacks the lock screen schedules with `setTimeout`: restoring the
prompt message, and firing `onUnlock` (the stage transition). -/
inductive LockAction
  | resetStatus
  | unlockFire
deriving DecidableEq

/-- State of the `LockScreen` component: the `status` message, the lock icon
(`lockOpen` models `lockIcon` being the open lock), the `isListening` flag,
and the pending `setTimeout` callbacks with their delays in milliseconds. -/
structure LockState where
  status : List Char
  lockOpen : Bool
  isListening : Bool
  pending : List (Nat × LockAction)
deriving DecidableEq

/-- Initial prompt message of the lock screen. -/
def promptMsg : List Char := "राधा रानी का नाम बोलकर ताले पर टैप करो... ✨".data

/-- Status shown while the recognizer is listening. -/
def listeningMsg : List Char := "मैं ध्यान से सुन रहा हूँ... 🤫".data

/-- Try-again message of the voice path, interpolating the literal heard
transcript (template string of `onResult`). -/
def misheardMsg (t : List Char) : List Char :=
  "ऊप्स! मैंने सुना: \"".data ++ t ++ "\"... फिर से कोशिश करो 😉".data

/-- Status shown by `onError`. -/
def errorMsg : List Char := "कुछ गड़बड़ हुई, फिर से कोशिश करें।".data

/-- Try-again message of the typed fallback path (no interpolation). -/
def wrongWordMsg : List Char := "ऊप्स! गलत शब्द... फिर से कोशिश करो 😉".data

/-- Status shown by `handleUnlock`. -/
def unlockedMsg : List Char := "ताला खुल गया! 🔓🎉".data

/-- Initial `LockScreen` state. -/
def lockInit : LockState :=
  { status := promptMsg, lockOpen := false, isListening := false, pending := [] }

/-- `handleUnlock` (lines 552–558): set the unlocked status and icon and
schedule `onUnlock` after 1500 ms. -/
def handleUnlockL (s : LockState) : LockState :=
  { s with
    status := unlockedMsg
    lockOpen := true
    pending := s.pending ++ [(1500, LockAction.unlockFire)] }

/-- The `onResult` callback (lines 517–531): match the transcript, unlock on
success, otherwise show the heard text and schedule a 3000 ms prompt reset;
either way clear `isListening`. -/
def onResultL (t : List Char) (s : LockState) : LockState :=
  let s1 :=
    if matchesText t then handleUnlockL s
    else
      { s with
        status := misheardMsg t
        pending := s.pending ++ [(3000, LockAction.resetStatus)] }
  { s1 with isListening := false }

/-- The `onError` callback (lines 532–538): transient error message and a
2000 ms prompt reset. -/
def onErrorL (s : LockState) : LockState :=
  { s with
    status := errorMsg
    isListening := false
    pending := s.pending ++ [(2000, LockAction.resetStatus)] }

/-- The `onStart` callback (lines 539–542). -/
def onStartL (s : LockState) : LockState :=
  { s with status := listeningMsg, isListening := true }

/-- `handleFallbackSubmit` (lines 566–579): match the typed text, unlock on
success, otherwise show the generic wrong-word message and schedule a
2000 ms prompt reset. -/
def handleFallbackSubmitL (v : List Char) (s : LockState) : LockState :=
  if matchesText v then handleUnlockL s
  else
    { s with
      status := wrongWordMsg
      pending := s.pending ++ [(2000, LockAction.resetStatus)] }

/-- Body of the prompt-reset timeouts: restore the prompt status. -/
def fireResetL (s : LockState) : LockState := { s with status := promptMsg }

/-- The three top-level stages of `CombinedApp` (line 918). -/
inductive AppStage
  | lock
  | letter
  | proposal
deriving DecidableEq, Fintype

/-- Events that change the stage: the lock screen's `onUnlock` callback and
the letter's `onRevealProposal` callback. -/
inductive StageEvent
  | unlockDone
  | revealProposal
deriving DecidableEq, Fintype

/-- Which events can be delivered in which stage.  `onUnlock` is produced
only by `LockScreen`'s 1500 ms unlock timer, which is created in the Lock
stage and can still fire right after the transition to Letter (a second
matching input); `onRevealProposal` is a button click available only while
the Letter stage is mounted (the conditional rendering of lines 935–937). -/
def eventCanOccur : AppStage → StageEvent → Bool
  | AppStage.lock, StageEvent.unlockDone => true
  | AppStage.letter, StageEvent.unlockDone => true
  | AppStage.letter, StageEvent.revealProposal => true
  | _, _ => false

/-- Stage transition function of `CombinedApp` (lines 920–938):
`handleUnlock` sets the stage to `letter`, `handleRevealProposal` to
`proposal`; an event whose source is not mounted is not delivered. -/
def stageStep (s : AppStage) (e : StageEvent) : AppStage :=
  if eventCanOccur s e then
    match e with
    | StageEvent.unlockDone => AppStage.letter
    | StageEvent.revealProposal => AppStage.proposal
  else s

/-- Position of a stage in the one-directional order Lock → Letter →
Proposal. -/
def stageOrder : AppStage → Nat
  | AppStage.lock => 0
  | AppStage.letter => 1
  | AppStage.proposal => 2

/-- Mount predicate of `LockScreen` (line 935). -/
def lockMounted (s : AppStage) : Bool := s == AppStage.lock

/-- Mount predicate of `LoveLetter` (line 936). -/
def letterMounted (s : AppStage) : Bool := s == AppStage.letter

/-- Mount predicate of `ProposalScreen` (line 937). -/
def proposalMounted (s : AppStage) : Bool := s == AppStage.proposal

/-- The ten entries of `letterParagraphs` (lines 671–709), retaining the
`isStrong` flag of each; the prose bodies do not influence behaviour, only
the number of paragraphs does. -/
def letterParagraphsStrong : List Bool :=
  [true, false, false, false, false, false, false, false, false, false]

/-- Number of letter paragraphs (`letterParagraphs.length`). -/
def paragraphCount : Nat := letterParagraphsStrong.length

/-- Period of the reveal interval in milliseconds (line 663). -/
def tickPeriodMs : Nat := 1200

/-- State of the paragraph reveal: the `visibleParagraphs` counter and
whether the `setInterval` timer is still armed. -/
structure RevealState where
  progress : Nat
  intervalActive : Bool
deriving DecidableEq

/-- Reveal state on entry to the Letter stage: `useState(0)` and a freshly
started interval. -/
def revealInit : RevealState := { progress := 0, intervalActive := true }

/-- One firing of the reveal interval (lines 655–663): increment while below
the paragraph count, otherwise clear the interval and keep the value. -/
def revealTick (s : RevealState) : RevealState :=
  if s.intervalActive then
    if s.progress < paragraphCount then { s with progress := s.progress + 1 }
    else { s with intervalActive := false }
  else s

/-- Reveal state after `k` interval firings. -/
def revealAfter (k : Nat) : RevealState := revealTick^[k] revealInit

/-- Wall-clock time, in milliseconds after stage entry, of the `k`-th
interval firing. -/
def tickTimeMs (k : Nat) : Nat := k * tickPeriodMs

/-- State of the `ProposalScreen` component: the four visibility flags and
the reported position of the evasive "No" button in percent, plus the
pending 1000 ms second-relocation timeout of `handleNo`. -/
structure ProposalState where
  showHint : Bool
  showProposal : Bool
  showButtons : Bool
  celebrationMode : Bool
  noX : ℚ
  noY : ℚ
  movePending : Bool
deriving DecidableEq

/-- Outcome of the proposal as the specification names it. -/
inductive ProposalOutcome
  | Pending
  | Accepted
deriving DecidableEq

/-- The outcome the component reports: Accepted exactly when
`celebrationMode` has been set by the accept control. -/
def outcomeOf (s : ProposalState) : ProposalOutcome :=
  if s.celebrationMode then ProposalOutcome.Accepted else ProposalOutcome.Pending

/-- Initial `ProposalScreen` state: all flags false, button at (50, 80). -/
def proposalInit : ProposalState :=
  { showHint := false
    showProposal := false
    showButtons := false
    celebrationMode := false
    noX := 50
    noY := 80
    movePending := false }

/-- `handleYes` (lines 799–801): commit the accepted outcome and hide the
buttons (the celebration particles are cosmetic and not modelled). -/
def handleYesP (s : ProposalState) : ProposalState :=
  { s with
    celebrationMode := true
    showButtons := false }

/-- `handleNo` (lines 822–834) with the two `Math.random()` draws made
explicit: relocate the button to `(r·80+10)` percent on each axis and
schedule a second relocation after 1000 ms. -/
def handleNoP (r1 r2 : ℚ) (s : ProposalState) : ProposalState :=
  { s with
    noX := r1 * 80 + 10
    noY := r2 * 80 + 10
    movePending := true }

/-- Body of `handleNo`'s 1000 ms timeout: a second relocation with fresh
draws. -/
def fireMoveP (r1 r2 : ℚ) (s : ProposalState) : ProposalState :=
  { s with
    noX := r1 * 80 + 10
    noY := r2 * 80 + 10
    movePending := false }

/-- A whole sequence of evasive-control activations, one pair of random
draws per activation. -/
def runNoActivations (rs : List (ℚ × ℚ)) (s : ProposalState) : ProposalState :=
  rs.foldl (fun st r => handleNoP r.1 r.2 st) s

/-- State of the `BackgroundMusic` audio engine.  `isPlaying` is the live
React prop; `ctxClosed` records `audioContextRef.current.close()` having
run; `pendingRearm` holds the melody re-arm `setTimeout`s of
`playMelody` (lines 246–248), each carrying the value of `isPlaying` that
its closure captured when `startMusic` ran; `passes` counts melody passes
scheduled into the audio graph. -/
structure EngineState where
  isPlaying : Bool
  ctxClosed : Bool
  pendingRearm : List Bool
  passes : Nat
deriving DecidableEq

/-- Events of the audio engine: the `isPlaying` effect calling `startMusic`
(play) or `stopMusic` (stop), a pending re-arm timeout firing, and the
unmount cleanup closing the audio context. -/
inductive EngineEvent
  | play
  | stop
  | fire (i : Nat)
  | closeCtx
deriving DecidableEq

/-- Engine state right after mount. -/
def engineInit : EngineState :=
  { isPlaying := false, ctxClosed := false, pendingRearm := [], passes := 0 }

/-- One engine event (lines 170–259).  `play`: `startMusic` runs
`playMelody`, scheduling a pass and a re-arm timeout whose closure captures
`isPlaying = true` (the effect only calls `startMusic` when `isPlaying` is
true); on a closed context `playNote`'s `createOscillator` throws, so
nothing is scheduled.  `stop`: `stopMusic` only touches
`oscillatorRef.current`, which no code ever assigns, so no timer or chain
is affected.  `fire i`: the timeout body `if (isPlaying) playMelody()`
tests the captured value, so it re-schedules a pass and a new timeout
whenever that captured value is true and the context still works.
`closeCtx`: the unmount cleanup of lines 163–167. -/
def engineStep (s : EngineState) : EngineEvent → EngineState
  | EngineEvent.play =>
    if s.ctxClosed then { s with isPlaying := true }
    else
      { s with
        isPlaying := true
        passes := s.passes + 1
        pendingRearm := s.pendingRearm ++ [true] }
  | EngineEvent.stop => { s with isPlaying := false }
  | EngineEvent.closeCtx => { s with ctxClosed := true }
  | EngineEvent.fire i =>
    if h : i < s.pendingRearm.length then
      let captured := s.pendingRearm.get ⟨i, h⟩
      let rest := s.pendingRearm.eraseIdx i
      if captured && !s.ctxClosed then
        { s with
          passes := s.passes + 1
          pendingRearm := rest ++ [captured] }
      else { s with pendingRearm := rest }
    else s

/-- Run the engine from `engineInit` through a sequence of events. -/
def engineRun (es : List EngineEvent) : EngineState :=
  es.foldl engineStep engineInit

/-- State of the `LoveLetter` stage relevant to teardown: whether the stage
is mounted, whether its reveal interval and 500 ms music-start timeout are
armed, the `isPlaying` UI state, and the embedded audio engine. -/
structure LetterState where
  mounted : Bool
  revealActive : Bool
  musicTimerActive : Bool
  isPlayingUI : Bool
  engine : EngineState
deriving DecidableEq

/-- Events of the Letter stage: entering it, the 500 ms music timeout
firing (`setIsPlaying(true)`, which makes the effect call `startMusic`), a
melody re-arm timeout firing, and exiting the stage (unmount). -/
inductive LetterEvent
  | mountStage
  | musicTimerFire
  | engineFire (i : Nat)
  | exitStage
deriving DecidableEq

/-- Letter-stage state before mount. -/
def letterInit : LetterState :=
  { mounted := false
    revealActive := false
    musicTimerActive := false
    isPlayingUI := false
    engine := engineInit }

/-- One Letter-stage event (lines 650–669 and 170–182).  `exitStage` runs
the effect cleanups: `clearInterval(timer)`, `clearTimeout(musicTimer)`,
`stopMusic()` (a no-op, `oscillatorRef.current` is never assigned) and
`audioContextRef.current.close()`; the melody re-arm timeouts in
`engine.pendingRearm` are not cleared by any cleanup. -/
def letterStep (s : LetterState) : LetterEvent → LetterState
  | LetterEvent.mountStage =>
    { s with
      mounted := true
      revealActive := true
      musicTimerActive := true }
  | LetterEvent.musicTimerFire =>
    if s.musicTimerActive then
      { s with
        musicTimerActive := false
        isPlayingUI := true
        engine := engineStep s.engine EngineEvent.play }
    else s
  | LetterEvent.engineFire i =>
    { s with engine := engineStep s.engine (EngineEvent.fire i) }
  | LetterEvent.exitStage =>
    { s with
      mounted := false
      revealActive := false
      musicTimerActive := false
      isPlayingUI := false
      engine := engineStep (engineStep s.engine EngineEvent.stop)
        EngineEvent.closeCtx }

/-- Run the Letter stage from `letterInit` through a sequence of events. -/
def letterRun (es : List LetterEvent) : LetterState :=
  es.foldl letterStep letterInit

/-- One oscillator scheduled into the audio graph by `playNote`: frequency,
absolute start time, duration (all in the audio context's units) and the
relative volume argument. -/
structure NoteEvent where
  freq : ℚ
  start : ℚ
  dur : ℚ
  vol : ℚ
deriving DecidableEq

/-- The three gain-automation calls `playNote` issues on `noteGain.gain`. -/
inductive GainCmd
  | setValueAt
  | linearRampTo
  | expRampTo
deriving DecidableEq

/-- The fixed melody (lines 216–227): pairs of frequency (Hz) and duration,
as exact rationals. -/
def melody : List (ℚ × ℚ) :=
  [(26163/100, 1), (29366/100, 1), (32963/100, 6/5), (392, 3/2),
   (34923/100, 1), (32963/100, 9/5), (440, 6/5), (392, 3/2),
   (34923/100, 1), (32963/100, 2)]

/-- Gain envelope of `playNote` (lines 203–207): set 0 at the start, ramp
linearly to `0.03 * volume` over 0.2, then ramp exponentially to half of
that by `duration - 0.2`, then exponentially to 0.001 at the end. -/
def playNoteEnv (e : NoteEvent) : List (GainCmd × ℚ × ℚ) :=
  let baseVolume := 3/100 * e.vol
  [(GainCmd.setValueAt, 0, e.start),
   (GainCmd.linearRampTo, baseVolume, e.start + 1/5),
   (GainCmd.expRampTo, baseVolume * (1/2), e.start + e.dur - 1/5),
   (GainCmd.expRampTo, 1/1000, e.start + e.dur)]

/-- The notes one iteration of `playMelody`'s `forEach` body schedules for
melody index `i` at clock value `t` (lines 232–241): the main note, a
1.5× harmony under every index divisible by 3 at volume 0.3, and a 2×
octave under every index divisible by 4 starting 0.1 later with 0.8 of the
duration at volume 0.2. -/
def scheduleNote (t : ℚ) (i : Nat) (fd : ℚ × ℚ) : List NoteEvent :=
  [⟨fd.1, t, fd.2, 1⟩]
    ++ (if i % 3 = 0 then [⟨fd.1 * (3/2), t, fd.2, 3/10⟩] else [])
    ++ (if i % 4 = 0 then [⟨fd.1 * 2, t + 1/10, fd.2 * (4/5), 1/5⟩] else [])

/-- The `forEach` loop of `playMelody`, advancing `currentTime` by each
note's duration. -/
def schedulePassAux : ℚ → Nat → List (ℚ × ℚ) → List NoteEvent
  | _, _, [] => []
  | t, i, fd :: rest => scheduleNote t i fd ++ schedulePassAux (t + fd.2) (i + 1) rest

/-- All notes one call of `playMelody` schedules when the clock reads
`t0`. -/
def schedulePass (t0 : ℚ) : List NoteEvent := schedulePassAux t0 0 melody

/-- Sum of the durations of the first `k` melody notes: the absolute-clock
offset of the `k`-th note from the start of the pass. -/
def durSum (k : Nat) : ℚ := ((melody.take k).map Prod.snd).sum

/-- Specification-side description of the notes for melody index `k`:
scheduled against an absolute clock at offset `durSum k`, with the harmony
under every 3rd note and the octave under every 4th as the specification
words them. -/
def specNotes (t0 : ℚ) (k : Nat) : List NoteEvent :=
  let fd := melody.getD k (0, 0)
  let s := t0 + durSum k
  [⟨fd.1, s, fd.2, 1⟩]
    ++ (if k % 3 = 0 then [⟨fd.1 * (3/2), s, fd.2, 3/10⟩] else [])
    ++ (if k % 4 = 0 then [⟨fd.1 * 2, s + 1/10, fd.2 * (4/5), 1/5⟩] else [])

/-- Specification-side description of a whole pass: the spec notes of every
melody index, in order. -/
def passSpec (t0 : ℚ) : List NoteEvent :=
  ((List.range melody.length).map (specNotes t0)).flatten

/-- Specification-side description of the envelope: linear ramp up to the
peak `0.03 * volume`, then a two-stage exponential decay to half the peak
and on to near-silence. -/
def envelopeSpec (e : NoteEvent) : List (GainCmd × ℚ × ℚ) :=
  let peak := 3/100 * e.vol
  [(GainCmd.setValueAt, 0, e.start),
   (GainCmd.linearRampTo, peak, e.start + 1/5),
   (GainCmd.expRampTo, peak / 2, e.start + e.dur - 1/5),
   (GainCmd.expRampTo, 1/1000, e.start + e.dur)]

/-- The re-arm delay of `playMelody` in milliseconds: the sum of the melody
durations times 1000 (line 248). -/
def passDurationMs : ℚ := (melody.map Prod.snd).sum * 1000

theorem startsWithL_iff (n : List Char) :
    ∀ l, startsWithL n l = true ↔ ∃ t, l = n ++ t := by
  induction n with
  | nil =>
    intro l
    simp [startsWithL]
  | cons a n ih =>
    intro l
    cases l with
    | nil =>
      simp [startsWithL]
    | cons b l =>
      constructor
      · intro h
        simp only [startsWithL, Bool.and_eq_true, beq_iff_eq] at h
        obtain ⟨t, ht⟩ := (ih l).mp h.2
        exact ⟨t, by simp [h.1, ht]⟩
      · rintro ⟨t, ht⟩
        rw [List.cons_append] at ht
        injection ht with h1 h2
        simp only [startsWithL, Bool.and_eq_true, beq_iff_eq]
        exact ⟨h1.symm, (ih l).mpr ⟨t, h2⟩⟩

theorem includesL_iff (n : List Char) :
    ∀ l, includesL n l = true ↔ containsSeg l n := by
  intro l
  induction l with
  | nil =>
    constructor
    · intro h
      have hn : n = [] := by
        simpa [includesL, List.isEmpty_iff] using h
      exact ⟨[], [], by simp [hn]⟩
    · rintro ⟨u, v, huv⟩
      have h1 := List.append_eq_nil.mp huv.symm
      have h2 := List.append_eq_nil.mp h1.1
      simp [includesL, List.isEmpty_iff, h2.2]
  | cons c rest ih =>
    simp only [includesL, Bool.or_eq_true, startsWithL_iff, ih]
    constructor
    · rintro (⟨t, ht⟩ | ⟨u, v, huv⟩)
      · exact ⟨[], t, by simp [ht]⟩
      · exact ⟨c :: u, v, by simp [huv]⟩
    · rintro ⟨u, v, huv⟩
      cases u with
      | nil =>
        left
        exact ⟨v, by simpa using huv⟩
      | cons c' u' =>
        right
        have h1 : c' = c := by
          have := (List.cons.injEq _ _ _ _ ▸ huv).1
          exact this.symm
        have h2 : rest = u' ++ n ++ v := by
          have := (List.cons.injEq _ _ _ _ ▸ huv).2
          simpa using this
        exact ⟨u', v, h2⟩

theorem containsSeg_trans {hay n m : List Char}
    (h1 : containsSeg hay n) (h2 : containsSeg n m) : containsSeg hay m := by
  obtain ⟨u, v, rfl⟩ := h1
  obtain ⟨u', v', rfl⟩ := h2
  exact ⟨u ++ u', v' ++ v, by simp⟩

theorem map_split {α β : Type} (f : α → β) :
    ∀ (a : List β) (l : List α), l.map f = a ++ (l.map f).drop a.length →
      ∃ l₁ l₂, l = l₁ ++ l₂ ∧ l₁.map f = a := by
  intro a
  induction a with
  | nil => intro l _; exact ⟨[], l, rfl, rfl⟩
  | cons x a ih =>
    intro l h
    cases l with
    | nil => simp at h
    | cons y l =>
      have hx : f y = x := by
        have := congrArg (fun t => t.headD x) h
        simpa using this
      have hrec : l.map f = a ++ (l.map f).drop a.length := by
        have := congrArg List.tail h
        simpa using this
      obtain ⟨l₁, l₂, hl, hm⟩ := ih l hrec
      exact ⟨y :: l₁, l₂, by simp [hl], by simp [hm, hx]⟩

theorem containsSeg_map_iff (f : Char → Char) (s p : List Char) :
    containsSeg (s.map f) p ↔ ∃ t, containsSeg s t ∧ t.map f = p := by
  constructor
  · rintro ⟨u, v, h⟩
    have hu : ∃ s₁ s₂, s = s₁ ++ s₂ ∧ s₁.map f = u := by
      apply map_split f u s
      have : (s.map f).drop u.length = p ++ v := by simp [h]
      simp [h, this]
    obtain ⟨s₁, s₂, rfl, hmu⟩ := hu
    have h2 : s₂.map f = p ++ v := by
      have := h
      simp [List.map_append, hmu, List.append_assoc] at this ⊢
      exact this
    have hp : ∃ t₁ t₂, s₂ = t₁ ++ t₂ ∧ t₁.map f = p := by
      apply map_split f p s₂
      have : (s₂.map f).drop p.length = v := by simp [h2]
      simp [h2, this]
    obtain ⟨t₁, t₂, rfl, hmp⟩ := hp
    exact ⟨t₁, ⟨s₁, t₂, by simp⟩, hmp⟩
  · rintro ⟨t, ⟨u, v, rfl⟩, rfl⟩
    exact ⟨u.map f, v.map f, by simp⟩

/-- Claim C1: the phrase matcher is a pure function of its input text: a
string matches exactly when it contains some accepted phrase up to (ASCII
plus simple-script) case, and the empty string never matches. -/
theorem c1_matcher_pure_correct :
    (∀ s : List Char,
        matchesText s = true ↔
          ∃ p, p ∈ acceptedPhrases ∧ ∃ t, containsSeg s t ∧ lowerStr t = p)
    ∧ matchesText [] = false := by
  constructor
  · intro s
    have hstep : matchesText s = true ↔
        ∃ p, p ∈ acceptedPhrases ∧ containsSeg (lowerStr s) p := by
      simp only [matchesText, Bool.or_eq_true, includesL_iff, acceptedPhrases,
        List.mem_cons, List.not_mem_nil, or_false]
      constructor
      · rintro (((h | h) | h) | h)
        · exact ⟨_, Or.inl rfl, h⟩
        · exact ⟨_, Or.inr (Or.inl rfl), h⟩
        · exact ⟨_, Or.inr (Or.inr (Or.inl rfl)), h⟩
        · exact ⟨_, Or.inr (Or.inr (Or.inr rfl)), h⟩
      · rintro ⟨p, (rfl | rfl | rfl | rfl), h⟩
        · exact Or.inl (Or.inl (Or.inl h))
        · exact Or.inl (Or.inl (Or.inr h))
        · exact Or.inl (Or.inr h)
        · exact Or.inr h
    rw [hstep]
    constructor
    · rintro ⟨p, hp, hc⟩
      obtain ⟨t, hts, htm⟩ := (containsSeg_map_iff Char.toLower s p).mp hc
      exact ⟨p, hp, t, hts, htm⟩
    · rintro ⟨p, hp, t, hts, htm⟩
      exact ⟨p, hp, (containsSeg_map_iff Char.toLower s p).mpr ⟨t, hts, htm⟩⟩
  · decide

/-- Claim C10: the unlock predicate holds iff the lower-cased input contains
"radha" or "राधा"; strings embedding "radha" (such as "aradhana" and
"radhakrishna") unlock, and the two-word checks are subsumed by the
single-word checks. -/
theorem c10_single_word_subsumes :
    (∀ s : List Char,
        matchesText s = true ↔
          (containsSeg (lowerStr s) "radha".data
            ∨ containsSeg (lowerStr s) "राधा".data))
    ∧ (∀ s, matchesText s = matchesSingleWord s)
    ∧ matchesText "aradhana".data = true
    ∧ matchesText "radhakrishna".data = true := by
  have key : ∀ s : List Char, matchesText s = true ↔
      (containsSeg (lowerStr s) "radha".data
        ∨ containsSeg (lowerStr s) "राधा".data) := by
    intro s
    simp only [matchesText, Bool.or_eq_true, includesL_iff]
    constructor
    · rintro (((h | h) | h) | h)
      · exact Or.inl (containsSeg_trans h ⟨[], " radha".data, by decide⟩)
      · exact Or.inr (containsSeg_trans h ⟨[], " राधा".data, by decide⟩)
      · exact Or.inl h
      · exact Or.inr h
    · rintro (h | h)
      · exact Or.inl (Or.inr h)
      · exact Or.inr h
  refine ⟨key, ?_, by decide, by decide⟩
  intro s
  have key2 : matchesSingleWord s = true ↔
      (containsSeg (lowerStr s) "radha".data
        ∨ containsSeg (lowerStr s) "राधा".data) := by
    simp only [matchesSingleWord, Bool.or_eq_true, includesL_iff]
  have h := (key s).trans key2.symm
  cases hm : matchesText s <;> cases hn : matchesSingleWord s <;> simp_all

/-- Claim C8: exactly one stage is mounted at a time, the only transitions
are Lock→Letter (on `onUnlock`) and Letter→Proposal (on
`onRevealProposal`), and the stage order never decreases (no
back-navigation). -/
theorem c8_stage_machine :
    (∀ s : AppStage,
        ((if lockMounted s then 1 else 0) + (if letterMounted s then 1 else 0)
          + (if proposalMounted s then 1 else 0)) = 1)
    ∧ (∀ s e, stageStep s e = s
        ∨ (s = AppStage.lock ∧ e = StageEvent.unlockDone
            ∧ stageStep s e = AppStage.letter)
        ∨ (s = AppStage.letter ∧ e = StageEvent.revealProposal
            ∧ stageStep s e = AppStage.proposal))
    ∧ (∀ s e, stageOrder s ≤ stageOrder (stageStep s e)) := by
  refine ⟨?_, ?_, ?_⟩ <;> decide

/-- Claim C5: a matching input (voice or typed) schedules exactly one unlock
callback, with a 1500 ms delay, and that callback moves the stage from Lock
to Letter; a duplicate firing in the Letter stage changes nothing. -/
theorem c5_match_unlocks_once :
    ∀ t : List Char, matchesText t = true →
      (onResultL t lockInit).pending = [(1500, LockAction.unlockFire)]
      ∧ (handleFallbackSubmitL t lockInit).pending = [(1500, LockAction.unlockFire)]
      ∧ (onResultL t lockInit).status = unlockedMsg
      ∧ (onResultL t lockInit).lockOpen = true
      ∧ stageStep AppStage.lock StageEvent.unlockDone = AppStage.letter
      ∧ stageStep AppStage.letter StageEvent.unlockDone = AppStage.letter := by
  intro t h
  refine ⟨?_, ?_, ?_, ?_, by decide, by decide⟩ <;>
    simp [onResultL, handleFallbackSubmitL, handleUnlockL, lockInit, h]

/-- Witness for C5 at the concrete transcript "radha radha". -/
theorem c5_match_unlocks_once_witness :
    (onResultL "radha radha".data lockInit).pending
        = [(1500, LockAction.unlockFire)]
    ∧ (handleFallbackSubmitL "radha radha".data lockInit).pending
        = [(1500, LockAction.unlockFire)]
    ∧ (onResultL "radha radha".data lockInit).status = unlockedMsg
    ∧ (onResultL "radha radha".data lockInit).lockOpen = true
    ∧ stageStep AppStage.lock StageEvent.unlockDone = AppStage.letter
    ∧ stageStep AppStage.letter StageEvent.unlockDone = AppStage.letter :=
  c5_match_unlocks_once "radha radha".data (by decide)

/-- Counterexample to claim C4 as stated: for the non-matching typed input
"hello" the reset delay is 2000 ms, not the claimed 3000 ms, and the shown
message does not contain the literal typed text. -/
theorem c4_counterexample :
    (handleFallbackSubmitL "hello".data lockInit).pending
        = [(2000, LockAction.resetStatus)]
    ∧ ¬ containsSeg (handleFallbackSubmitL "hello".data lockInit).status
        "hello".data
    ∧ (2000 : Nat) ≠ 3000 := by
  refine ⟨by decide, ?_, by decide⟩
  intro h
  exact absurd ((includesL_iff _ _).mpr h) (by decide)

/-- Claim C4 as amended: a non-matching voice result shows the literal heard
text and schedules a 3000 ms prompt reset; a non-matching typed submission
shows the generic wrong-word message (without the literal text) and
schedules a 2000 ms reset; a recognition error shows a transient message
and schedules a 2000 ms reset; none of these open the lock or schedule a
stage transition, and the reset callback restores the prompt. -/
theorem c4_failure_handling :
    ∀ t : List Char, matchesText t = false →
      ((onResultL t lockInit).status = misheardMsg t
        ∧ containsSeg (onResultL t lockInit).status t
        ∧ (onResultL t lockInit).pending = [(3000, LockAction.resetStatus)]
        ∧ (onResultL t lockInit).lockOpen = false
        ∧ (fireResetL (onResultL t lockInit)).status = promptMsg)
      ∧ ((handleFallbackSubmitL t lockInit).status = wrongWordMsg
        ∧ (handleFallbackSubmitL t lockInit).pending
            = [(2000, LockAction.resetStatus)]
        ∧ (handleFallbackSubmitL t lockInit).lockOpen = false
        ∧ (fireResetL (handleFallbackSubmitL t lockInit)).status = promptMsg)
      ∧ ((onErrorL lockInit).status = errorMsg
        ∧ (onErrorL lockInit).pending = [(2000, LockAction.resetStatus)]
        ∧ (onErrorL lockInit).lockOpen = false
        ∧ (fireResetL (onErrorL lockInit)).status = promptMsg) := by
  intro t h
  refine ⟨⟨?_, ?_, ?_, ?_, ?_⟩, ⟨?_, ?_, ?_, ?_⟩, ⟨?_, ?_, ?_, ?_⟩⟩ <;>
    simp [onResultL, handleFallbackSubmitL, onErrorL, handleUnlockL,
      fireResetL, lockInit, h]
  exact ⟨"ऊप्स! मैंने सुना: \"".data, "\"... फिर से कोशिश करो 😉".data,
    by simp [misheardMsg]⟩

/-- Witness for the amended C4 at the concrete non-matching input "hello". -/
theorem c4_failure_handling_witness :
    (onResultL "hello".data lockInit).status = misheardMsg "hello".data
    ∧ (onResultL "hello".data lockInit).pending
        = [(3000, LockAction.resetStatus)]
    ∧ (handleFallbackSubmitL "hello".data lockInit).status = wrongWordMsg
    ∧ (onErrorL lockInit).pending = [(2000, LockAction.resetStatus)] := by
  have h := c4_failure_handling "hello".data (by decide)
  exact ⟨h.1.1, h.1.2.2.1, h.2.1.1, h.2.2.2.1⟩

theorem revealAfter_closed (k : Nat) :
    revealAfter k =
      { progress := min k paragraphCount,
        intervalActive := decide (k ≤ paragraphCount) } := by
  induction k with
  | zero =>
    simp [revealAfter, revealInit]
  | succ k ih =>
    have hstep : revealAfter (k + 1) = revealTick (revealAfter k) := by
      simp [revealAfter, Function.iterate_succ_apply']
    rw [hstep, ih]
    rcases Nat.lt_trichotomy k paragraphCount with h | h | h
    · have b1 : k ≤ paragraphCount := Nat.le_of_lt h
      have b2 : k + 1 ≤ paragraphCount := h
      have m1 : min k paragraphCount = k := Nat.min_eq_left b1
      have m2 : min (k + 1) paragraphCount = k + 1 := Nat.min_eq_left b2
      simp [revealTick, b1, b2, m1, m2, h]
    · subst h
      have m2 : min (paragraphCount + 1) paragraphCount = paragraphCount := by
        omega
      have b2 : ¬ (paragraphCount + 1 ≤ paragraphCount) := by omega
      simp [revealTick, m2, b2]
    · have b1 : ¬ (k ≤ paragraphCount) := by omega
      have b2 : ¬ (k + 1 ≤ paragraphCount) := by omega
      have m1 : min k paragraphCount = paragraphCount := by omega
      have m2 : min (k + 1) paragraphCount = paragraphCount := by omega
      simp [revealTick, b1, b2, m1, m2]

/-- Claim C6: RevealProgress starts at 0, increases by exactly one per tick
while below the paragraph count, never decreases, never exceeds the count,
first reaches the count at the tick whose elapsed time is
`paragraphCount * tickPeriodMs`, and after the interval has cancelled
itself the state never changes again. -/
theorem c6_reveal_progress :
    (revealAfter 0).progress = 0
    ∧ (∀ k, k < paragraphCount →
        (revealAfter (k + 1)).progress = (revealAfter k).progress + 1)
    ∧ (∀ k, (revealAfter k).progress ≤ (revealAfter (k + 1)).progress)
    ∧ (∀ k, (revealAfter k).progress ≤ paragraphCount)
    ∧ (revealAfter paragraphCount).progress = paragraphCount
    ∧ (∀ k, (revealAfter k).progress = paragraphCount → paragraphCount ≤ k)
    ∧ tickTimeMs paragraphCount = paragraphCount * tickPeriodMs
    ∧ (∀ k, paragraphCount < k → (revealAfter k).intervalActive = false)
    ∧ (∀ k, paragraphCount < k → revealAfter k = revealAfter (paragraphCount + 1)) := by
  refine ⟨?_, ?_, ?_, ?_, ?_, ?_, ?_, ?_, ?_⟩
  · simp [revealAfter_closed]
  · intro k hk; simp only [revealAfter_closed]; omega
  · intro k; simp only [revealAfter_closed]; omega
  · intro k; simp only [revealAfter_closed]; omega
  · simp only [revealAfter_closed]; omega
  · intro k hk; simp only [revealAfter_closed] at hk; omega
  · simp [tickTimeMs]
  · intro k hk
    simp only [revealAfter_closed, decide_eq_false_iff_not]
    omega
  · intro k hk
    simp only [revealAfter_closed, RevealState.mk.injEq, decide_eq_decide]
    omega

/-- Witness for C6 at concrete tick counts 4 and 12. -/
theorem c6_reveal_progress_witness :
    (revealAfter 5).progress = (revealAfter 4).progress + 1
    ∧ (revealAfter 12).intervalActive = false :=
  ⟨c6_reveal_progress.2.1 4 (by decide),
   c6_reveal_progress.2.2.2.2.2.2.2.1 12 (by decide)⟩

theorem runNoActivations_outcome (rs : List (ℚ × ℚ)) :
    ∀ s, outcomeOf (runNoActivations rs s) = outcomeOf s := by
  induction rs with
  | nil => intro s; rfl
  | cons r rs ih =>
    intro s
    have hstep : runNoActivations (r :: rs) s
        = runNoActivations rs (handleNoP r.1 r.2 s) := rfl
    rw [hstep, ih]
    simp [outcomeOf, handleNoP]

/-- Claim C7: each activation of the evasive control moves it to the freshly
drawn position, which lies within [10%, 90%] on both axes; no sequence of
such activations (nor the delayed second relocation) changes the outcome,
which stays Pending until the accept control commits Accepted; and an
Accepted outcome is preserved by every handler. -/
theorem c7_evasive_control :
    ∀ (s : ProposalState) (r1 r2 : ℚ),
      0 ≤ r1 → r1 < 1 → 0 ≤ r2 → r2 < 1 →
      ((handleNoP r1 r2 s).noX = r1 * 80 + 10
        ∧ (handleNoP r1 r2 s).noY = r2 * 80 + 10
        ∧ 10 ≤ (handleNoP r1 r2 s).noX ∧ (handleNoP r1 r2 s).noX ≤ 90
        ∧ 10 ≤ (handleNoP r1 r2 s).noY ∧ (handleNoP r1 r2 s).noY ≤ 90)
      ∧ outcomeOf (handleNoP r1 r2 s) = outcomeOf s
      ∧ outcomeOf (fireMoveP r1 r2 s) = outcomeOf s
      ∧ (∀ rs, outcomeOf (runNoActivations rs s) = outcomeOf s)
      ∧ outcomeOf (handleYesP s) = ProposalOutcome.Accepted
      ∧ (outcomeOf s = ProposalOutcome.Accepted →
          outcomeOf (handleNoP r1 r2 s) = ProposalOutcome.Accepted
          ∧ outcomeOf (fireMoveP r1 r2 s) = ProposalOutcome.Accepted
          ∧ outcomeOf (handleYesP s) = ProposalOutcome.Accepted) := by
  intro s r1 r2 h1 h2 h3 h4
  refine ⟨⟨rfl, rfl, ?_, ?_, ?_, ?_⟩, ?_, ?_,
    fun rs => runNoActivations_outcome rs s, ?_, ?_⟩
  · simp only [handleNoP]; linarith
  · simp only [handleNoP]; linarith
  · simp only [handleNoP]; linarith
  · simp only [handleNoP]; linarith
  · simp [outcomeOf, handleNoP]
  · simp [outcomeOf, fireMoveP]
  · simp [outcomeOf, handleYesP]
  · intro hacc
    refine ⟨?_, ?_, ?_⟩ <;>
      simp_all [outcomeOf, handleNoP, fireMoveP, handleYesP]

/-- Claim C2 evaluated on the code: two `play()` calls — whether back to
back or around an ineffective `stop()` — leave TWO pending re-arm timers,
not one; and a re-arm timer firing after `stop()` re-schedules anyway
(its closure captured `isPlaying = true`), so the code has no effective
re-entrancy guard.  This refutes the claim as a description of the code
and exhibits the divergence from the specified invariant. -/
theorem c2_duplicate_scheduling :
    (engineRun [EngineEvent.play, EngineEvent.play]).pendingRearm.length = 2
    ∧ (engineRun [EngineEvent.play, EngineEvent.stop,
        EngineEvent.play]).pendingRearm.length = 2
    ∧ (engineRun [EngineEvent.play, EngineEvent.stop,
        EngineEvent.fire 0]).isPlaying = false
    ∧ (engineRun [EngineEvent.play, EngineEvent.stop,
        EngineEvent.fire 0]).pendingRearm.length = 1
    ∧ (engineRun [EngineEvent.play, EngineEvent.stop,
        EngineEvent.fire 0]).passes = 2 :=
  ⟨rfl, rfl, rfl, rfl, rfl⟩

/-- Claim C3 evaluated on the code: after entering the Letter stage,
letting music start and then exiting the stage, the reveal interval and the
music-start timeout are indeed cleared, but one melody re-arm timeout is
still pending — a timer started by the stage that fires after the stage has
exited (its callback then dies on the closed audio context). -/
theorem c3_teardown_leaks_rearm_timer :
    (letterRun [LetterEvent.mountStage, LetterEvent.musicTimerFire,
        LetterEvent.exitStage]).mounted = false
    ∧ (letterRun [LetterEvent.mountStage, LetterEvent.musicTimerFire,
        LetterEvent.exitStage]).revealActive = false
    ∧ (letterRun [LetterEvent.mountStage, LetterEvent.musicTimerFire,
        LetterEvent.exitStage]).musicTimerActive = false
    ∧ (letterRun [LetterEvent.mountStage, LetterEvent.musicTimerFire,
        LetterEvent.exitStage]).engine.pendingRearm.length = 1
    ∧ (letterRun [LetterEvent.mountStage, LetterEvent.musicTimerFire,
        LetterEvent.exitStage, LetterEvent.engineFire 0]).engine.pendingRearm.length = 0 :=
  ⟨rfl, rfl, rfl, rfl, rfl⟩

/-- Claim C9: while looping, one pass schedules exactly the fixed melody
against an absolute clock advancing by each duration, with a 1.5× harmony
at volume 0.3 under every 3rd note, a 2× octave under every 4th note
starting 0.1 later at volume 0.2 with 0.8 of the duration, every note
shaped by the linear-attack / two-stage exponential-decay envelope; the
harmony volume is below the main volume and the octave volume below the
harmony volume; and the pass lasts 13.2 time units (13200 ms re-arm
delay). -/
theorem c9_melody_scheduling :
    (∀ t0 : ℚ, schedulePass t0 = passSpec t0)
    ∧ (∀ e : NoteEvent, playNoteEnv e = envelopeSpec e)
    ∧ ((3 : ℚ)/10 < 1 ∧ (1 : ℚ)/5 < 3/10)
    ∧ passDurationMs = 13200 := by
  refine ⟨?_, ?_, ⟨by norm_num, by norm_num⟩, by norm_num [passDurationMs, melody]⟩
  · intro t0
    have hlen : melody.length = 10 := rfl
    have hr : List.range 10 = [0, 1, 2, 3, 4, 5, 6, 7, 8, 9] := rfl
    simp only [schedulePass, passSpec, hlen, hr, List.map_cons, List.map_nil,
      List.flatten, schedulePassAux, scheduleNote, specNotes, melody, durSum,
      List.take, List.sum_cons, List.sum_nil]
    norm_num [List.cons.injEq, NoteEvent.mk.injEq]
    ring_nf
    simp
  · intro e
    simp only [playNoteEnv, envelopeSpec]
    norm_num
    ring

/-- Witness for C7 at the initial proposal state with draws of one half. -/
theorem c7_evasive_control_witness :
    10 ≤ (handleNoP (1/2) (1/2) proposalInit).noX
    ∧ (handleNoP (1/2) (1/2) proposalInit).noX ≤ 90
    ∧ outcomeOf (handleNoP (1/2) (1/2) proposalInit)
        = ProposalOutcome.Pending := by
  have h := c7_evasive_control proposalInit (1/2) (1/2)
    (by norm_num) (by norm_num) (by norm_num) (by norm_num)
  refine ⟨h.1.2.2.1, h.1.2.2.2.1, ?_⟩
  rw [h.2.1]
  rfl
